import Mathlib

/-!
Verification development for the object_storage_poc repository.

Shallow embedding of the storage-provider code:
* `LocalStorageProvider` (src/providers/local.js): a filesystem-backed
  provider storing content files and JSON metadata sidecars.  The on-disk
  state is modelled as two finite association maps keyed by sanitized
  paths: one for content files (under the base directory) and one for
  metadata sidecar files (under the parallel `.metadata` tree).  The two
  trees are disjoint directories, so two maps are a faithful model for
  every key that does not sanitize into the `.metadata` subtree itself.
* `AzureStorageProvider.delete` (src/providers/azure.js): the container is
  modelled as the list of existing blob names; the vendor SDK call
  `blobClient.delete()` rejects with a 404 `RestError` when the blob is
  absent, which the code wraps and rethrows.
* `BaseStorageProvider.getHealth` (src/providers/base.js).
* `StorageProviderFactory.create` (src/providers/factory.js), including
  the JavaScript property-lookup semantics of the object literal
  (property access consults `Object.prototype`).
* `TestRunner` (src/tests/runner.js): suite execution, result
  aggregation, and the concurrent-upload benchmark with its cleanup loop.

Errors thrown by the JavaScript code are modelled as `Except` values whose
error components are inductive constructors mirroring the distinct message
strings the source builds; external library behaviour (crypto md5,
`fs-extra`, the Azure SDK, `JSON.parse`) is modelled by its documented
semantics at the points the source relies on it.
-/

/-- Byte strings are lists of byte values. -/
abbrev Bytes := List Nat

/-- Models the md5 content digest computed by `_calculateHash`
(src/providers/local.js lines 274-283) as a deterministic function of the
content bytes.  The digest algorithm itself lives in the `crypto` library;
the code (and every claim) relies only on the digest being a deterministic
function of the bytes read from the file. -/
def hashFn (bs : Bytes) : Nat :=
  bs.foldl (fun h b => h * 257 + b + 1) 7

/-- Models `Buffer.from(s)` for the ASCII strings the repository uses:
the code points of the characters. -/
def strBytes (s : String) : Bytes :=
  s.data.map Char.toNat

/-- First-match lookup in an association list (a directory of files keyed
by path). -/
def lookupA {α : Type} (m : List (String × α)) (k : String) : Option α :=
  match m with
  | [] => none
  | (k1, v) :: rest => if k1 = k then some v else lookupA rest k

/-- Write a file at a path: overwrite the entry if the path is present,
otherwise append it.  Models `fs.writeFile` / `fs.copy` onto a path. -/
def writeA {α : Type} (m : List (String × α)) (k : String) (v : α) :
    List (String × α) :=
  if m.any (fun p => p.1 = k) then
    m.map (fun p => if p.1 = k then (k, v) else p)
  else
    m ++ [(k, v)]

/-- Remove a file at a path; removing an absent path is a no-op.  Models
`fs.remove`, which does not error when the path does not exist. -/
def removeA {α : Type} (m : List (String × α)) (k : String) :
    List (String × α) :=
  m.filter (fun p => p.1 ≠ k)

/-- The metadata record `upload` serialises into the JSON sidecar file
(src/providers/local.js lines 55-62): canonical key, content length,
content type, content hash, upload timestamp, and the user metadata map. -/
structure StoredMeta where
  key : String
  size : Nat
  contentType : String
  hash : Nat
  uploadTime : Nat
  metadata : List (String × String)
deriving DecidableEq, Repr

/-- A sidecar file on disk: `some m` is a file whose JSON parses to the
record `m`; `none` is a file whose contents `JSON.parse` rejects. -/
abbrev SideFile := Option StoredMeta

/-- The Local provider's on-disk state: content files and metadata sidecar
files, each keyed by sanitized path.  The sidecar list order models the
order in which `_findMetadataFiles` walks the metadata tree. -/
structure FS where
  contents : List (String × Bytes)
  sidecars : List (String × SideFile)
deriving DecidableEq, Repr

/-- Distinct failure modes of the Local provider, one constructor per
distinct message the source builds (the rendered strings are noted on each
constructor). -/
inductive LErr where
  /-- message: `Local storage download failed: Object KEY not found` -/
  | downloadNotFound (key : String)
  /-- message: `Failed to get metadata: Object KEY not found` -/
  | metaNotFound (key : String)
  /-- message: `Failed to get metadata: ` followed by the `JSON.parse`
  syntax error for the sidecar of KEY -/
  | metaParse (key : String)
  /-- message: `Failed to get metadata: ` followed by the ENOENT error from
  `fs.stat` on the missing content file of KEY -/
  | metaStat (key : String)
  /-- message: `Local storage copy failed: Source object KEY not found` -/
  | copyNotFound (src : String)
  /-- message: `Local storage copy failed: Source and destination must not
  be the same.` — raised by `fs-extra`'s `copy` when both keys sanitize to
  the same path -/
  | copySamePath (src dst : String)
  /-- message: `Local storage copy failed: ` followed by the read/parse
  error for the source sidecar -/
  | copyMetaRead (src : String)
deriving DecidableEq, Repr

namespace LocalStorageProvider

/-- Key sanitization (src/providers/local.js lines 263-272): every
character outside ASCII letters, digits, dot, underscore, slash and dash
is replaced by an underscore. -/
def sanitizeChar (c : Char) : Char :=
  if c.isAlphanum || c = '.' || c = '_' || c = '/' || c = '-' then c else '_'

/-- The sanitized key used as the path segment for both the content file
and the metadata sidecar. -/
def sanitizeKey (s : String) : String :=
  String.mk (s.data.map sanitizeChar)

/-- The `data` argument of `upload`: either raw bytes (a Buffer, or a
string that is not a path to an existing file, converted with
`Buffer.from`), or a path to an existing local file, carried here together
with that file's content bytes and the `mime-types` lookup result for the
path (`none` models a lookup returning `false`). -/
inductive UploadData where
  | buf (bs : Bytes)
  | filePath (content : Bytes) (mime : Option String)
deriving DecidableEq, Repr

/-- The content bytes that `upload` ends up writing to the content file. -/
def UploadData.bytes : UploadData → Bytes
  | .buf bs => bs
  | .filePath c _ => c

/-- Options accepted by `upload`. -/
structure UploadOptions where
  contentType : Option String := none
  metadata : Option (List (String × String)) := none
deriving DecidableEq, Repr

/-- The result object `upload` returns (timing fields and the filesystem
location are omitted; no claim concerns them). -/
structure UploadResult where
  success : Bool
  key : String
  etag : Nat
  size : Nat
deriving DecidableEq, Repr

/-- The `contentType` recorded in the sidecar: the explicit option wins;
for an existing-file upload the `mime-types` lookup is used next; the
fallback is `application/octet-stream` (src/providers/local.js lines
38-58). -/
def effContentType (data : UploadData) (opts : UploadOptions) : String :=
  match opts.contentType with
  | some t => t
  | none =>
    match data with
    | .buf _ => "application/octet-stream"
    | .filePath _ m => m.getD "application/octet-stream"

/-- `upload(key, data, options)` (src/providers/local.js lines 28-80):
write the content file at the sanitized path, hash the written bytes,
then write the metadata sidecar; returns the hash as `etag` and the
content length as `size`.  `now` models `new Date()` at the metadata
write. -/
def upload (fs : FS) (key : String) (data : UploadData)
    (opts : UploadOptions) (now : Nat) : FS × UploadResult :=
  let p := sanitizeKey key
  let content := data.bytes
  let h := hashFn content
  let meta : StoredMeta :=
    { key := key
      size := content.length
      contentType := effContentType data opts
      hash := h
      uploadTime := now
      metadata := opts.metadata.getD [] }
  (⟨writeA fs.contents p content, writeA fs.sidecars p (some meta)⟩,
   { success := true, key := key, etag := h, size := content.length })

/-- The result object `download` returns (timing omitted). -/
structure DownloadResult where
  success : Bool
  key : String
  destinationPath : String
  size : Nat
deriving DecidableEq, Repr

/-- `download(key, destinationPath)` (src/providers/local.js lines
82-110): the presence check is `fs.pathExists` on the CONTENT file; when
present the content is copied to the destination and its size returned. -/
def download (fs : FS) (key : String) (destinationPath : String) :
    Except LErr DownloadResult :=
  match lookupA fs.contents (sanitizeKey key) with
  | none => .error (.downloadNotFound key)
  | some c =>
    .ok { success := true, key := key, destinationPath := destinationPath
          size := c.length }

/-- The record `getMetadata` returns (the source also includes the content
file's mtime as `lastModified` and the provider name; no claim concerns
them). -/
structure MetaResult where
  key : String
  size : Nat
  etag : Nat
  contentType : String
  metadata : List (String × String)
deriving DecidableEq, Repr

/-- `getMetadata(key)` (src/providers/local.js lines 112-137): the
presence check is `fs.pathExists` on the METADATA sidecar; the sidecar is
then parsed and the CONTENT file is `fs.stat`ed (so a sidecar without a
content file still fails, with a stat error rather than the not-found
message). -/
def getMetadata (fs : FS) (key : String) : Except LErr MetaResult :=
  match lookupA fs.sidecars (sanitizeKey key) with
  | none => .error (.metaNotFound key)
  | some none => .error (.metaParse key)
  | some (some m) =>
    match lookupA fs.contents (sanitizeKey key) with
    | none => .error (.metaStat key)
    | some _ =>
      .ok { key := key, size := m.size, etag := m.hash
            contentType := m.contentType, metadata := m.metadata }

/-- The result object `delete` returns. -/
structure DeleteResult where
  success : Bool
  key : String
deriving DecidableEq, Repr

/-- `delete(key)` (src/providers/local.js lines 184-200): `fs.remove` on
both files; `fs.remove` is a no-op on absent paths, so deletion always
succeeds. -/
def delete (fs : FS) (key : String) : FS × DeleteResult :=
  let p := sanitizeKey key
  (⟨removeA fs.contents p, removeA fs.sidecars p⟩,
   { success := true, key := key })

/-- `exists(key)` (src/providers/local.js lines 202-209): `fs.pathExists`
on the CONTENT file (the source names this method `exists`, a Lean
keyword). -/
def existsKey (fs : FS) (key : String) : Bool :=
  (lookupA fs.contents (sanitizeKey key)).isSome

/-- Options accepted by `list`.  The source calls the first field
`prefix`, a reserved word here; like the source, an absent value disables
the filter (the source tests the option's truthiness, and the only falsy
string, the empty string, filters nothing since every key starts with
it). -/
structure ListOptions where
  pre : Option String := none
  limit : Option Nat := none
deriving DecidableEq, Repr

/-- One entry of a list page (the source also includes the content file's
mtime as `lastModified`; no claim concerns it). -/
structure ListObj where
  key : String
  size : Nat
  etag : Nat
  contentType : String
deriving DecidableEq, Repr

/-- The page object `list` returns. -/
structure ListPage where
  objects : List ListObj
  isTruncated : Bool
deriving DecidableEq, Repr

/-- The effective page limit, `options.limit || 1000`
(src/providers/local.js line 145): an absent limit — or a limit of `0`,
which is falsy in JavaScript — becomes 1000. -/
def effLimit (o : ListOptions) : Nat :=
  match o.limit with
  | some n => if n = 0 then 1000 else n
  | none => 1000

/-- The truthiness-guarded filter of the loop body: with a prefix option
the stored canonical key must start with it. -/
def matchesPre (p : Option String) (k : String) : Bool :=
  match p with
  | some s => k.startsWith s
  | none => true

/-- The loop of `list` (src/providers/local.js lines 147-172) over the
sidecar files found by `_findMetadataFiles`, carrying the running `count`:
stop once `count` reaches the limit; a sidecar whose JSON fails to parse —
or whose content file is missing, making the `fs.stat` in the same `try`
throw — is skipped without incrementing `count`; a sidecar whose key fails
the prefix filter is skipped likewise. -/
def listGo (cm : List (String × Bytes)) : List (String × SideFile) → Nat → Nat →
    Option String → List ListObj
  | [], _, _, _ => []
  | e :: rest, count, limit, p =>
    if limit ≤ count then []
    else
      match e.2 with
      | none => listGo cm rest count limit p
      | some m =>
        if matchesPre p m.key then
          match lookupA cm (sanitizeKey m.key) with
          | none => listGo cm rest count limit p
          | some _ =>
            { key := m.key, size := m.size, etag := m.hash
              contentType := m.contentType } ::
              listGo cm rest (count + 1) limit p
        else listGo cm rest count limit p

/-- `list(options)` (src/providers/local.js lines 139-182): collect up to
the limit, then return the collected page sorted by key — the source
sorts with `localeCompare`, modelled here as code-point string order — and
`isTruncated` is whether the count reached the limit. -/
def list (fs : FS) (o : ListOptions) : ListPage :=
  let lim := effLimit o
  let objs := listGo fs.contents fs.sidecars 0 lim o.pre
  { objects := objs.mergeSort (fun a b => a.key ≤ b.key)
    isTruncated := decide (lim ≤ objs.length) }

/-- The result object `copy` returns. -/
structure CopyResult where
  success : Bool
  sourceKey : String
  destinationKey : String
deriving DecidableEq, Repr

/-- `copy(sourceKey, destinationKey)` (src/providers/local.js lines
227-261): the presence check is `fs.pathExists` on the source CONTENT
file; then `fs.copy` duplicates the content — `fs-extra` rejects a copy
whose source and destination are the same file, which happens exactly
when the two keys sanitize to the same path — and only then is the source
sidecar read, parsed, and rewritten under the destination path with the
`key` and `uploadTime` fields replaced.  A failure after the content copy
leaves the copied content file behind (the source has no rollback). -/
def copy (fs : FS) (sourceKey destinationKey : String) (now : Nat) :
    FS × Except LErr CopyResult :=
  let sp := sanitizeKey sourceKey
  let dp := sanitizeKey destinationKey
  match lookupA fs.contents sp with
  | none => (fs, .error (.copyNotFound sourceKey))
  | some c =>
    if sp = dp then (fs, .error (.copySamePath sourceKey destinationKey))
    else
      let fs1 : FS := ⟨writeA fs.contents dp c, fs.sidecars⟩
      match lookupA fs.sidecars sp with
      | some (some m) =>
        let dm : StoredMeta := { m with key := destinationKey, uploadTime := now }
        (⟨fs1.contents, writeA fs1.sidecars dp (some dm)⟩,
         .ok { success := true, sourceKey := sourceKey
               destinationKey := destinationKey })
      | _ => (fs1, .error (.copyMetaRead sourceKey))

/-- The mutating operations of the provider, for reasoning about what a
later `getMetadata` observes.  The read operations (`download`,
`getMetadata`, `exists`, `list`, `getSignedUrl`) leave the state
untouched, so a trace of mutating operations covers every interleaving. -/
inductive Op where
  | up (key : String) (data : UploadData) (opts : UploadOptions) (now : Nat)
  | del (key : String)
  | cp (sourceKey destinationKey : String) (now : Nat)
deriving DecidableEq, Repr

/-- State transition of one mutating operation (results discarded). -/
def step (fs : FS) : Op → FS
  | .up k d o now => (upload fs k d o now).1
  | .del k => (delete fs k).1
  | .cp sk dk now => (copy fs sk dk now).1

/-- The operation targets the key `k` itself: it is an upload to `k`, a
delete of `k`, or a copy whose destination is `k`. -/
def writesTo (op : Op) (k : String) : Bool :=
  match op with
  | .up k1 _ _ _ => k1 = k
  | .del k1 => k1 = k
  | .cp _ dk _ => dk = k

/-- The operation can mutate the files stored at sanitized path `p`: its
target key sanitizes to `p`. -/
def touchesPath (op : Op) (p : String) : Bool :=
  match op with
  | .up k1 _ _ _ => sanitizeKey k1 = p
  | .del k1 => sanitizeKey k1 = p
  | .cp _ dk _ => sanitizeKey dk = p

end LocalStorageProvider

namespace AzureStorageProvider

/-- The Azure container state visible to `delete`: the names of the
existing blobs. -/
abbrev ContainerState := List String

/-- The result object `delete` returns on success. -/
structure DeleteResult where
  success : Bool
  key : String
deriving DecidableEq, Repr

/-- Models the Azure SDK call `blobClient.delete()`: deleting an existing
blob succeeds; deleting an absent blob rejects with a 404 `RestError`
whose message is the string carried here (the SDK offers a separate
`deleteIfExists` for tolerant deletion, which the code does not use). -/
def sdkDeleteBlob (st : ContainerState) (key : String) :
    Except String ContainerState :=
  if st.contains key then
    .ok (st.filter (fun b => b ≠ key))
  else
    .error "The specified blob does not exist."

/-- `delete(key)` (src/providers/azure.js lines 185-198): call the SDK
delete and wrap any failure in a new error; the SDK failure for an absent
blob is rethrown, not converted to a success. -/
def delete (st : ContainerState) (key : String) :
    Except String (ContainerState × DeleteResult) :=
  match sdkDeleteBlob st key with
  | .ok st1 => .ok (st1, { success := true, key := key })
  | .error e => .error ("Azure Blob Storage delete failed: " ++ e)

end AzureStorageProvider

namespace BaseStorageProvider

/-- The health object `getHealth` returns (the timestamp field is
omitted; no claim concerns it). -/
structure Health where
  status : String
  errMsg : Option String
deriving DecidableEq, Repr

/-- `getHealth()` (src/providers/base.js lines 99-115), parameterised by
the provider's `list` implementation (the only primitive it calls): it
awaits `list({ limit: 1 })` inside a `try`, returning a healthy record on
success and an unhealthy record carrying the caught error's message
otherwise — it never rethrows. -/
def getHealth
    (listFn : LocalStorageProvider.ListOptions →
      Except String LocalStorageProvider.ListPage) : Health :=
  match listFn { pre := none, limit := some 1 } with
  | .ok _ => { status := "healthy", errMsg := none }
  | .error e => { status := "unhealthy", errMsg := some e }

end BaseStorageProvider

namespace StorageProviderFactory

/-- The five provider classes registered in the factory's object literal
(src/providers/factory.js lines 9-15). -/
inductive ProviderClass where
  | aws
  | gcp
  | azure
  | minio
  | local
deriving DecidableEq, Repr

/-- The identifiers of the registered providers, in literal order;
`Object.keys(providers)` yields exactly this list. -/
def knownProviders : List String :=
  ["aws", "gcp", "azure", "minio", "local"]

/-- Lookup among the object literal's OWN properties. -/
def ownLookup (s : String) : Option ProviderClass :=
  if s = "aws" then some .aws
  else if s = "gcp" then some .gcp
  else if s = "azure" then some .azure
  else if s = "minio" then some .minio
  else if s = "local" then some .local
  else none

/-- What the JavaScript property access `providers[s]` can evaluate to:
an own property (a provider class), or — because property access consults
the prototype chain — an inherited member of `Object.prototype`.  The
inherited members whose names are already lowercase, and hence reachable
through `providerName.toLowerCase()`, are `constructor` (the `Object`
constructor function, truthy) and the accessor `__proto__` (the
`Object.prototype` object itself, truthy but not a constructor); every
other access yields `undefined`. -/
inductive LookupVal where
  | cls (c : ProviderClass)
  | objectCtor
  | objectProto
  | absentVal
deriving DecidableEq, Repr

/-- `providers[s]` with JavaScript lookup semantics. -/
def protoLookup (s : String) : LookupVal :=
  match ownLookup s with
  | some c => .cls c
  | none =>
    if s = "constructor" then .objectCtor
    else if s = "__proto__" then .objectProto
    else .absentVal

/-- Models `s.toLowerCase()`.  The JavaScript method lowercases the full
Unicode string; `Char.toLower` covers the basic latin range, which
includes every registered identifier and every lowercase-named
`Object.prototype` member, so lookups agree with the source on all
inputs whose relevant characters are basic latin. -/
def jsToLower (s : String) : String :=
  String.mk (s.data.map Char.toLower)

/-- What `create` produces on its non-throwing paths. -/
inductive CreateOut where
  /-- `new ProviderClass(config)` on a registered class. -/
  | inst (c : ProviderClass)
  /-- `new Object(config)` — reached via the inherited `constructor`
  property — which simply returns the config object. -/
  | cfgObject
deriving DecidableEq, Repr

/-- The message of the error thrown for an unregistered identifier
(src/providers/factory.js line 20): it names the ORIGINAL argument and
joins `Object.keys(providers)` with a comma. -/
def unknownMsg (name : String) : String :=
  "Unknown storage provider: " ++ name ++
    ". Available providers: aws, gcp, azure, minio, local"

/-- `StorageProviderFactory.create(providerName, config)`
(src/providers/factory.js lines 8-24): look up the lowercased name in the
object literal; a falsy result throws the descriptive error; a truthy
result is used as a constructor — `new` on the non-constructor
`Object.prototype` (reached via `__proto__`) throws a `TypeError`. -/
def create (name : String) : Except String CreateOut :=
  match protoLookup (jsToLower name) with
  | .cls c => .ok (.inst c)
  | .objectCtor => .ok .cfgObject
  | .objectProto => .error "ProviderClass is not a constructor"
  | .absentVal => .error (unknownMsg name)

end StorageProviderFactory

namespace TestRunner

/-- The status recorded for one executed test
(src/tests/runner.js lines 92-105): `passed`, or `failed` carrying the
thrown error's message. -/
inductive TStatus where
  | passed
  | failed (msg : String)
deriving DecidableEq, Repr

/-- The outcome of invoking one test function: normal return or a thrown
error with its message. -/
abbrev TOutcome := Except String Unit

/-- The status a test outcome is recorded as. -/
def statusOf : TOutcome → TStatus
  | .ok _ => .passed
  | .error e => .failed e

/-- Models assignment `testResult.tests[name] = entry` on a JavaScript
object: an existing key keeps its position and gets the new value, a new
key is appended. -/
def recordTest (m : List (String × TStatus)) (name : String)
    (st : TStatus) : List (String × TStatus) :=
  if m.any (fun p => p.1 = name) then
    m.map (fun p => if p.1 = name then (name, st) else p)
  else
    m ++ [(name, st)]

/-- The per-suite loop shared by `runBasicTests`, `runPerformanceTests`
and `runSecurityTests` (src/tests/runner.js lines 92-105, 116-129,
139-152): each test runs inside its own `try`, its outcome is recorded,
and the loop continues regardless. -/
def runTests (suite : List (String × TOutcome)) :
    List (String × TStatus) :=
  suite.foldl (fun m t => recordTest m t.1 (statusOf t.2)) []

/-- The per-provider record pushed onto `this.results` (the `passRate`
string and error message are omitted; no claim concerns them). -/
structure ProviderResult where
  tests : List (String × TStatus)
  overall : String
deriving DecidableEq, Repr

/-- `testProvider` (src/tests/runner.js lines 29-79), parameterised by
the outcome of the construct-and-initialize step and by the suite's test
outcomes: a throwing initialization is caught by the outer `try` and
recorded as `overall: error` with an empty `tests` object; otherwise the
suite runs, and `overall` is `passed` when the number of passed entries
equals the total, else `failed`. -/
def testProvider (init : Except String Unit)
    (suite : List (String × TOutcome)) : ProviderResult :=
  match init with
  | .error _ => { tests := [], overall := "error" }
  | .ok _ =>
    let tests := runTests suite
    let passed := (tests.filter (fun t => t.2 = TStatus.passed)).length
    let total := tests.length
    { tests := tests
      overall := if passed = total then "passed" else "failed" }

/-- Models `generateTestKey(prefix)` (src/providers/base.js lines
171-175), which returns `prefix-TIMESTAMP-RANDOM`: the
timestamp-and-random suffix makes every call yield a previously unused
key, modelled by a strictly increasing counter threaded through the
runner.  Distinct counters give distinct keys. -/
def generateTestKey (pre : String) (ctr : Nat) : String :=
  pre ++ "-" ++ toString ctr

/-- The key uploaded for lane `i` of the concurrent-upload benchmark:
`generateTestKey` is called with prefix `concurrent-i` and the counter
values `0..4` are consumed by the five upload lanes. -/
def concUploadKey (i : Nat) : String :=
  generateTestKey ("concurrent-" ++ toString i) i

/-- The key the cleanup loop of the benchmark deletes for lane `i`: it
calls `generateTestKey` AGAIN with the same prefix, consuming the later
counter values `5..9`, so it names keys that were never uploaded. -/
def concCleanupKey (i : Nat) : String :=
  generateTestKey ("concurrent-" ++ toString i) (5 + i)

/-- The payload of the concurrent-upload benchmark. -/
def concData : LocalStorageProvider.UploadData :=
  .buf (strBytes "Concurrent test data")

/-- `testConcurrentUploads` (src/tests/runner.js lines 293-322) run
against the Local provider: five uploads under fresh generated keys, then
the cleanup loop deletes the keys produced by five FURTHER
`generateTestKey` calls (ignoring their errors).  `now` stamps the
uploads. -/
def testConcurrentUploads (fs : FS) (now : Nat) : FS :=
  let afterUploads :=
    (List.range 5).foldl
      (fun s i =>
        (LocalStorageProvider.upload s (concUploadKey i) concData {} now).1)
      fs
  (List.range 5).foldl
    (fun s i => (LocalStorageProvider.delete s (concCleanupKey i)).1)
    afterUploads

end TestRunner

open LocalStorageProvider

/-- The key has a content file in the state. -/
def hasContentFile (fs : FS) (k : String) : Bool :=
  (lookupA fs.contents (sanitizeKey k)).isSome

/-- The key has a metadata sidecar file in the state (parseable or not). -/
def hasSidecarFile (fs : FS) (k : String) : Bool :=
  (lookupA fs.sidecars (sanitizeKey k)).isSome

/-- The key is observed as absent: `exists` is false, `download` fails
with its not-found error, and `getMetadata` fails with its not-found
error. -/
def treatedAbsent (fs : FS) (k : String) : Prop :=
  existsKey fs k = false ∧
  (∀ dest, download fs k dest = .error (.downloadNotFound k)) ∧
  getMetadata fs k = .error (.metaNotFound k)

/-- The key is observed as present: `exists` is true and `download` and
`getMetadata` succeed. -/
def treatedPresent (fs : FS) (k : String) : Prop :=
  existsKey fs k = true ∧
  (∀ dest, (download fs k dest).isOk = true) ∧
  (getMetadata fs k).isOk = true

/-- Claim C1 as stated: presence under `getMetadata`, `download` and
`exists` is determined by the sidecar, so a content file without a
sidecar is observed as absent by all three, and a sidecar without a
content file is observed as present by all three. -/
def C1Claim : Prop := ∀ fs k,
  (hasContentFile fs k = true ∧ hasSidecarFile fs k = false →
    treatedAbsent fs k) ∧
  (hasSidecarFile fs k = true ∧ hasContentFile fs k = false →
    treatedPresent fs k)

/-- Claim C2 as stated, over the two embedded backends: deleting an
absent key is a success everywhere, a second consecutive delete never
errors, and `exists` is false afterwards — uniformly, including the Azure
backend whose SDK reports deletion of an absent blob as an error. -/
def C2Claim : Prop :=
  (∀ fs k,
    (LocalStorageProvider.delete fs k).2.success = true ∧
    ((LocalStorageProvider.delete fs k).1 |> fun fs1 =>
      (LocalStorageProvider.delete fs1 k).2.success = true ∧
      existsKey fs1 k = false)) ∧
  (∀ (st : AzureStorageProvider.ContainerState) k,
    st.contains k = false →
    (AzureStorageProvider.delete st k).isOk = true) ∧
  (∀ (st st1 : AzureStorageProvider.ContainerState) k r,
    AzureStorageProvider.delete st k = .ok (st1, r) →
    (AzureStorageProvider.delete st1 k).isOk = true)

/-- Claim C3 as stated: the `etag` an upload returns is what any later
`getMetadata` of the same key returns, provided no operation in between
writes to that key. -/
def C3Claim : Prop := ∀ (fs : FS) (k : String) (d : UploadData)
    (o : UploadOptions) (now : Nat) (trace : List Op),
  (∀ op ∈ trace, writesTo op k = false) →
  Except.map MetaResult.etag
      (getMetadata (trace.foldl step (upload fs k d o now).1) k) =
    .ok (upload fs k d o now).2.etag

/-- The returned page is sorted by key. -/
def SortedByKey (l : List ListObj) : Prop :=
  l.Pairwise (fun a b => a.key ≤ b.key)

/-- The state with the unparseable sidecar files removed. -/
def dropInvalid (fs : FS) : FS :=
  ⟨fs.contents, fs.sidecars.filter (fun e => e.2.isSome)⟩

/-- Claim C5 as stated: a page holds at most `limit` objects, every
returned key passes the prefix filter, the page is sorted
lexicographically by key, and unparseable sidecars are skipped without
failing the listing (listing is a total function, and removing the
unparseable sidecars does not change its result). -/
def C5Claim : Prop := ∀ fs p lim,
  (list fs ⟨p, some lim⟩).objects.length ≤ lim ∧
  (∀ o ∈ (list fs ⟨p, some lim⟩).objects, matchesPre p o.key = true) ∧
  SortedByKey (list fs ⟨p, some lim⟩).objects ∧
  list fs ⟨p, some lim⟩ = list (dropInvalid fs) ⟨p, some lim⟩

/-- Claim C10 as stated: lookup is case-insensitive (the same class is
constructed for `s` and for its lowercase form), and every `s` whose
lowercase form is not a registered identifier makes `create` throw the
descriptive error naming `s` and the identifier list. -/
def C10Claim : Prop :=
  (∀ s, (StorageProviderFactory.create s).toOption =
    (StorageProviderFactory.create (StorageProviderFactory.jsToLower s)).toOption) ∧
  (∀ s, StorageProviderFactory.jsToLower s ∉ StorageProviderFactory.knownProviders →
    StorageProviderFactory.create s = .error (StorageProviderFactory.unknownMsg s))

/-! ### General lemmas about the filesystem maps -/

theorem lookupA_cons {α : Type} (hd : String × α) (tl : List (String × α))
    (k : String) :
    lookupA (hd :: tl) k = if hd.1 = k then some hd.2 else lookupA tl k := by
  cases hd
  rfl

theorem lookupA_append {α : Type} (m1 m2 : List (String × α)) (k : String) :
    lookupA (m1 ++ m2) k = (lookupA m1 k).or (lookupA m2 k) := by
  induction m1 with
  | nil => simp [lookupA]
  | cons hd tl ih =>
    rw [List.cons_append, lookupA_cons, lookupA_cons]
    by_cases h : hd.1 = k
    · simp [h]
    · simp [h, ih]

theorem lookupA_eq_none {α : Type} (m : List (String × α)) (k : String)
    (h : m.any (fun p => p.1 = k) = false) : lookupA m k = none := by
  induction m with
  | nil => rfl
  | cons hd tl ih =>
    simp only [List.any_cons, Bool.or_eq_false_iff,
      decide_eq_false_iff_not] at h
    rw [lookupA_cons, if_neg h.1]
    exact ih h.2

theorem lookupA_mapWrite_self {α : Type} (m : List (String × α))
    (k : String) (v : α) (h : m.any (fun p => p.1 = k) = true) :
    lookupA (m.map (fun p => if p.1 = k then (k, v) else p)) k = some v := by
  induction m with
  | nil => simp at h
  | cons hd tl ih =>
    rw [List.map_cons]
    by_cases hk : hd.1 = k
    · rw [if_pos hk, lookupA_cons]
      simp
    · rw [if_neg hk, lookupA_cons, if_neg hk]
      apply ih
      simp only [List.any_cons, Bool.or_eq_true, decide_eq_true_eq] at h
      tauto

theorem lookupA_mapWrite_ne {α : Type} (m : List (String × α))
    (k k1 : String) (v : α) (h : k ≠ k1) :
    lookupA (m.map (fun p => if p.1 = k then (k, v) else p)) k1 =
      lookupA m k1 := by
  induction m with
  | nil => rfl
  | cons hd tl ih =>
    rw [List.map_cons]
    by_cases hk : hd.1 = k
    · have h2 : hd.1 ≠ k1 := by rw [hk]; exact h
      rw [if_pos hk, lookupA_cons, lookupA_cons, if_neg h, if_neg h2]
      exact ih
    · rw [if_neg hk, lookupA_cons, lookupA_cons]
      by_cases h1 : hd.1 = k1
      · simp [h1]
      · simp only [if_neg h1]
        exact ih

theorem lookupA_writeA_self {α : Type} (m : List (String × α)) (k : String)
    (v : α) : lookupA (writeA m k v) k = some v := by
  rw [writeA]
  by_cases h : m.any (fun p => p.1 = k)
  · rw [if_pos h]
    exact lookupA_mapWrite_self m k v h
  · rw [if_neg h, lookupA_append,
      lookupA_eq_none m k (Bool.eq_false_iff.mpr h)]
    simp [lookupA_cons]

theorem lookupA_writeA_ne {α : Type} (m : List (String × α)) (k k1 : String)
    (v : α) (h : k ≠ k1) : lookupA (writeA m k v) k1 = lookupA m k1 := by
  rw [writeA]
  by_cases hm : m.any (fun p => p.1 = k)
  · rw [if_pos hm]
    exact lookupA_mapWrite_ne m k k1 v h
  · rw [if_neg hm, lookupA_append]
    cases hl : lookupA m k1 with
    | some v1 => simp
    | none => simp [lookupA_cons, h, lookupA]

theorem lookupA_removeA_self {α : Type} (m : List (String × α))
    (k : String) : lookupA (removeA m k) k = none := by
  induction m with
  | nil => rfl
  | cons hd tl ih =>
    rw [removeA, List.filter_cons]
    by_cases hk : hd.1 = k
    · rw [if_neg (by simp [hk])]
      exact ih
    · rw [if_pos (by simp [hk]), lookupA_cons, if_neg hk]
      exact ih

theorem lookupA_removeA_ne {α : Type} (m : List (String × α))
    (k k1 : String) (h : k ≠ k1) :
    lookupA (removeA m k) k1 = lookupA m k1 := by
  induction m with
  | nil => rfl
  | cons hd tl ih =>
    rw [removeA, List.filter_cons, lookupA_cons]
    by_cases hk : hd.1 = k
    · have h2 : hd.1 ≠ k1 := by rw [hk]; exact h
      rw [if_neg (by simp [hk]), if_neg h2]
      exact ih
    · rw [if_pos (by simp [hk]), lookupA_cons]
      by_cases h1 : hd.1 = k1
      · rw [if_pos h1, if_pos h1]
      · rw [if_neg h1, if_neg h1]
        exact ih

/-! ### Preservation of untouched paths by the mutating operations -/

theorem step_preserves_contents (fs : FS) (op : Op) (p : String)
    (h : touchesPath op p = false) :
    lookupA (step fs op).contents p = lookupA fs.contents p := by
  cases op with
  | up k1 d o now =>
    simp only [touchesPath, decide_eq_false_iff_not] at h
    exact lookupA_writeA_ne _ _ _ _ h
  | del k1 =>
    simp only [touchesPath, decide_eq_false_iff_not] at h
    exact lookupA_removeA_ne _ _ _ h
  | cp sk dk now =>
    simp only [touchesPath, decide_eq_false_iff_not] at h
    rw [step, copy]
    cases hsrc : lookupA fs.contents (sanitizeKey sk) with
    | none => rfl
    | some c =>
      simp only
      by_cases hsp : sanitizeKey sk = sanitizeKey dk
      · rw [if_pos hsp]
      · rw [if_neg hsp]
        cases hmeta : lookupA fs.sidecars (sanitizeKey sk) with
        | none => exact lookupA_writeA_ne _ _ _ _ h
        | some side =>
          cases side with
          | none => exact lookupA_writeA_ne _ _ _ _ h
          | some m => exact lookupA_writeA_ne _ _ _ _ h

theorem step_preserves_sidecars (fs : FS) (op : Op) (p : String)
    (h : touchesPath op p = false) :
    lookupA (step fs op).sidecars p = lookupA fs.sidecars p := by
  cases op with
  | up k1 d o now =>
    simp only [touchesPath, decide_eq_false_iff_not] at h
    exact lookupA_writeA_ne _ _ _ _ h
  | del k1 =>
    simp only [touchesPath, decide_eq_false_iff_not] at h
    exact lookupA_removeA_ne _ _ _ h
  | cp sk dk now =>
    simp only [touchesPath, decide_eq_false_iff_not] at h
    rw [step, copy]
    cases hsrc : lookupA fs.contents (sanitizeKey sk) with
    | none => rfl
    | some c =>
      simp only
      by_cases hsp : sanitizeKey sk = sanitizeKey dk
      · rw [if_pos hsp]
      · rw [if_neg hsp]
        cases hmeta : lookupA fs.sidecars (sanitizeKey sk) with
        | none => rfl
        | some side =>
          cases side with
          | none => rfl
          | some m => exact lookupA_writeA_ne _ _ _ _ h

theorem foldl_step_preserves (trace : List Op) (fs : FS) (p : String)
    (h : ∀ op ∈ trace, touchesPath op p = false) :
    lookupA (trace.foldl step fs).contents p = lookupA fs.contents p ∧
    lookupA (trace.foldl step fs).sidecars p = lookupA fs.sidecars p := by
  induction trace generalizing fs with
  | nil => exact ⟨rfl, rfl⟩
  | cons op rest ih =>
    have hop : touchesPath op p = false := h op (List.mem_cons_self op rest)
    have hrest : ∀ o ∈ rest, touchesPath o p = false :=
      fun o ho => h o (List.mem_cons_of_mem op ho)
    rw [List.foldl_cons]
    rcases ih (step fs op) hrest with ⟨h1, h2⟩
    exact ⟨h1.trans (step_preserves_contents fs op p hop),
      h2.trans (step_preserves_sidecars fs op p hop)⟩

/-! ### Lemmas about the listing loop -/

theorem listGo_length (cm : List (String × Bytes)) (entries : List (String × SideFile))
    (count limit : Nat) (p : Option String) :
    (listGo cm entries count limit p).length + count ≤
      max limit count := by
  induction entries generalizing count with
  | nil =>
    simp only [listGo, List.length_nil]
    omega
  | cons e rest ih =>
    rw [listGo]
    by_cases hc : limit ≤ count
    · rw [if_pos hc]
      simp only [List.length_nil]
      omega
    · rw [if_neg hc]
      cases e.2 with
      | none =>
        simp only []
        have := ih count
        omega
      | some m =>
        simp only []
        by_cases hm : matchesPre p m.key
        · rw [if_pos hm]
          cases lookupA cm (sanitizeKey m.key) with
          | none =>
            simp only []
            have := ih count
            omega
          | some c =>
            simp only [List.length_cons]
            have := ih (count + 1)
            omega
        · rw [if_neg hm]
          have := ih count
          omega

theorem listGo_pre (cm : List (String × Bytes)) (entries : List (String × SideFile))
    (count limit : Nat) (p : Option String) :
    ∀ o ∈ listGo cm entries count limit p, matchesPre p o.key = true := by
  induction entries generalizing count with
  | nil => simp [listGo]
  | cons e rest ih =>
    rw [listGo]
    by_cases hc : limit ≤ count
    · simp [hc]
    · rw [if_neg hc]
      cases e.2 with
      | none =>
        simp only []
        exact ih count
      | some m =>
        simp only []
        by_cases hm : matchesPre p m.key
        · rw [if_pos hm]
          cases lookupA cm (sanitizeKey m.key) with
          | none =>
            simp only []
            exact ih count
          | some c =>
            simp only []
            intro o ho
            rcases List.mem_cons.mp ho with h1 | h1
            · rw [h1]
              exact hm
            · exact ih (count + 1) o h1
        · rw [if_neg hm]
          exact ih count

theorem listGo_stop (cm : List (String × Bytes)) (entries : List (String × SideFile))
    (count limit : Nat) (p : Option String) (h : limit ≤ count) :
    listGo cm entries count limit p = [] := by
  cases entries with
  | nil => rfl
  | cons e rest =>
    rw [listGo, if_pos h]

theorem listGo_dropNone (cm : List (String × Bytes)) (entries : List (String × SideFile))
    (count limit : Nat) (p : Option String) :
    listGo cm (entries.filter (fun e => e.2.isSome)) count limit p =
      listGo cm entries count limit p := by
  induction entries generalizing count with
  | nil => rfl
  | cons e rest ih =>
    rw [List.filter_cons]
    by_cases hc : limit ≤ count
    · rw [listGo_stop cm _ count limit p hc,
        listGo_stop cm (e :: rest) count limit p hc]
    · conv_rhs => rw [listGo]
      rw [if_neg hc]
      cases he : e.2 with
      | none =>
        rw [if_neg (by simp [he])]
        simp only []
        exact ih count
      | some m =>
        rw [if_pos (by simp [he])]
        conv_lhs => rw [listGo]
        rw [if_neg hc, he]
        simp only []
        by_cases hm : matchesPre p m.key
        · rw [if_pos hm, if_pos hm]
          cases lookupA cm (sanitizeKey m.key) with
          | none =>
            simp only []
            exact ih count
          | some c =>
            simp only [List.cons.injEq, true_and]
            exact ih (count + 1)
        · rw [if_neg hm, if_neg hm]
          exact ih count

/-! ### Lemmas about lowercasing and the factory lookup -/

theorem toNat_ofNat_valid (n : Nat) (h : n < 55296) :
    (Char.ofNat n).toNat = n := by
  rw [Char.ofNat, dif_pos (Or.inl h)]
  simp [Char.ofNatAux, Char.toNat, UInt32.toNat, BitVec.toNat_ofNatLt]

theorem toLower_toLower (c : Char) :
    Char.toLower (Char.toLower c) = Char.toLower c := by
  simp only [Char.toLower]
  by_cases h : c.toNat ≥ 65 ∧ c.toNat ≤ 90
  · rw [if_pos h]
    have hv : (Char.ofNat (c.toNat + 32)).toNat = c.toNat + 32 :=
      toNat_ofNat_valid _ (by omega)
    rw [if_neg (by omega)]
  · rw [if_neg h, if_neg h]

theorem jsToLower_jsToLower (s : String) :
    StorageProviderFactory.jsToLower (StorageProviderFactory.jsToLower s) =
      StorageProviderFactory.jsToLower s := by
  simp only [StorageProviderFactory.jsToLower]
  have hcomp : Char.toLower ∘ Char.toLower = Char.toLower :=
    funext toLower_toLower
  rw [List.map_map, hcomp]

theorem ownLookup_eq_none (s : String)
    (h : s ∉ StorageProviderFactory.knownProviders) :
    StorageProviderFactory.ownLookup s = none := by
  simp only [StorageProviderFactory.knownProviders, List.mem_cons,
    List.not_mem_nil, or_false, not_or] at h
  obtain ⟨h1, h2, h3, h4, h5⟩ := h
  simp [StorageProviderFactory.ownLookup, h1, h2, h3, h4, h5]

/-! ### Lemmas about the Azure container state -/

theorem contains_filter_self (st : List String) (k : String) :
    (st.filter (fun b => b ≠ k)).contains k = false := by
  simp [List.mem_filter]

/-! ### Lemmas about the suite runner -/

theorem runTests_foldl (suite : List (String × TestRunner.TOutcome))
    (acc : List (String × TestRunner.TStatus))
    (hdisj : ∀ t ∈ suite, acc.any (fun p => p.1 = t.1) = false)
    (hnd : (suite.map Prod.fst).Nodup) :
    suite.foldl
        (fun m t => TestRunner.recordTest m t.1 (TestRunner.statusOf t.2))
        acc =
      acc ++ suite.map (fun t => (t.1, TestRunner.statusOf t.2)) := by
  induction suite generalizing acc with
  | nil => simp
  | cons t ts ih =>
    rw [List.foldl_cons, TestRunner.recordTest,
      if_neg (by simp [hdisj t (List.mem_cons_self t ts)])]
    rw [List.map_cons] at hnd
    have hnd2 := hnd.of_cons
    have hdisj2 : ∀ u ∈ ts,
        (acc ++ [(t.1, TestRunner.statusOf t.2)]).any
          (fun p => p.1 = u.1) = false := by
      intro u hu
      rw [List.any_append]
      have h1 : acc.any (fun p => p.1 = u.1) = false :=
        hdisj u (List.mem_cons_of_mem t hu)
      have h2 : t.1 ≠ u.1 := by
        intro hcontra
        exact (List.nodup_cons.mp hnd).1
          (hcontra ▸ List.mem_map_of_mem Prod.fst hu)
      simp [h1, h2]
    rw [ih _ hdisj2 hnd2, List.map_cons, List.append_assoc,
      List.singleton_append]

theorem runTests_eq_map (suite : List (String × TestRunner.TOutcome))
    (hnd : (suite.map Prod.fst).Nodup) :
    TestRunner.runTests suite =
      suite.map (fun t => (t.1, TestRunner.statusOf t.2)) := by
  rw [TestRunner.runTests, runTests_foldl suite [] (by simp) hnd,
    List.nil_append]

/-! ### Lemmas about the sorted page -/

theorem sortedByKey_mergeSort (l : List ListObj) :
    SortedByKey (l.mergeSort (fun a b => a.key ≤ b.key)) := by
  have h := @List.sorted_mergeSort ListObj
    (fun a b => decide (a.key ≤ b.key))
    (fun a b c hab hbc => by
      simp only [decide_eq_true_eq] at hab hbc ⊢
      exact le_trans hab hbc)
    (fun a b => by simpa using le_total a.key b.key) l
  exact h.imp (fun hab => of_decide_eq_true hab)

/-! ### Claim theorems -/

/-- C1 (counterexample): the claim as stated is false on the code.  In the
state holding only a content file for key `k` (no sidecar), `exists(k)`
returns `true` — the source checks `fs.pathExists` on the CONTENT file
(src/providers/local.js lines 202-209) — whereas the claim requires all
three read operations to treat `k` as absent in that state. -/
theorem C1_counterexample : ¬ C1Claim := by
  intro h
  have h1 := (h ⟨[("k", [0])], []⟩ "k").1 ⟨by decide, by decide⟩
  exact absurd h1.1 (by decide)

/-- C1 (amended): presence as observed by `exists` and `download` is
determined by the CONTENT file — both report the key exactly when the
content file exists, regardless of the sidecar — while only `getMetadata`
keys its not-found check on the metadata sidecar: it reports the key as
not found precisely when the sidecar is absent (with a sidecar present it
never reports not-found, though it can still fail on a parse or stat
error). -/
theorem C1_presence_amended (fs : FS) (k dest : String) :
    existsKey fs k = hasContentFile fs k ∧
    ((download fs k dest).isOk = hasContentFile fs k) ∧
    (hasSidecarFile fs k = false →
      getMetadata fs k = .error (.metaNotFound k)) ∧
    (hasSidecarFile fs k = true →
      getMetadata fs k ≠ .error (.metaNotFound k)) := by
  refine ⟨rfl, ?_, ?_, ?_⟩
  · rw [download, hasContentFile]
    cases lookupA fs.contents (sanitizeKey k) <;> rfl
  · intro h
    rw [hasSidecarFile] at h
    rw [getMetadata]
    cases hl : lookupA fs.sidecars (sanitizeKey k) with
    | none => rfl
    | some side =>
      rw [hl] at h
      simp at h
  · intro h
    rw [hasSidecarFile] at h
    rw [getMetadata]
    cases hl : lookupA fs.sidecars (sanitizeKey k) with
    | none =>
      rw [hl] at h
      simp at h
    | some side =>
      cases side with
      | none => simp
      | some m =>
        cases lookupA fs.contents (sanitizeKey k) with
        | none => simp
        | some c => simp

/-- C1 (witness): the amended theorem applied at concrete states — the
empty state (no sidecar, so `getMetadata` reports not-found) and a state
holding both files for key `w` (sidecar present, so `getMetadata` does not
report not-found). -/
theorem C1_presence_witness :
    (hasSidecarFile ⟨[], []⟩ "k" = false ∧
      getMetadata ⟨[], []⟩ "k" = .error (.metaNotFound "k")) ∧
    (hasSidecarFile ⟨[("w", [1])], [("w", some ⟨"w", 1, "t", 5, 0, []⟩)]⟩
        "w" = true ∧
      getMetadata ⟨[("w", [1])], [("w", some ⟨"w", 1, "t", 5, 0, []⟩)]⟩
        "w" ≠ .error (.metaNotFound "w")) :=
  ⟨⟨by decide, (C1_presence_amended ⟨[], []⟩ "k" "d").2.2.1 (by decide)⟩,
   ⟨by decide,
    (C1_presence_amended ⟨[("w", [1])], [("w", some ⟨"w", 1, "t", 5, 0, []⟩)]⟩
      "w" "d").2.2.2 (by decide)⟩⟩

/-- C2 (counterexample): the claim as stated is false on the code.  The
Azure provider's `delete` of an absent blob propagates the wrapped SDK
404 error (src/providers/azure.js lines 185-198) instead of returning a
success: on the empty container, `delete("k")` yields an error. -/
theorem C2_counterexample : ¬ C2Claim := by
  intro h
  have h2 := h.2.1 [] "k" (by decide)
  exact absurd h2 (by decide)

/-- C2 (amended): the Local provider's `delete` is an unconditional
success (`fs.remove` is a no-op on absent paths), idempotent, and leaves
`exists` false; the Azure provider instead propagates the SDK error when
the blob is absent, so deleting an absent key — including the second of
two consecutive deletes of the same key — errors there. -/
theorem C2_delete_amended (fs : FS) (k : String)
    (st : AzureStorageProvider.ContainerState) (k2 : String) :
    (LocalStorageProvider.delete fs k).2.success = true ∧
    (LocalStorageProvider.delete
      (LocalStorageProvider.delete fs k).1 k).2.success = true ∧
    existsKey (LocalStorageProvider.delete fs k).1 k = false ∧
    (st.contains k2 = false →
      AzureStorageProvider.delete st k2 = .error
        "Azure Blob Storage delete failed: The specified blob does not exist.") ∧
    (∀ st1 r, AzureStorageProvider.delete st k2 = .ok (st1, r) →
      AzureStorageProvider.delete st1 k2 = .error
        "Azure Blob Storage delete failed: The specified blob does not exist.") := by
  refine ⟨rfl, rfl, ?_, ?_, ?_⟩
  · rw [existsKey, LocalStorageProvider.delete]
    simp only
    rw [lookupA_removeA_self]
    rfl
  · intro h
    rw [AzureStorageProvider.delete, AzureStorageProvider.sdkDeleteBlob,
      if_neg (by rw [h]; simp)]
    rfl
  · intro st1 r hok
    rw [AzureStorageProvider.delete] at hok
    rw [AzureStorageProvider.sdkDeleteBlob] at hok
    by_cases hc : st.contains k2 = true
    · rw [if_pos hc] at hok
      simp only [Except.ok.injEq, Prod.mk.injEq] at hok
      have hcf : st1.contains k2 = false :=
        hok.1 ▸ contains_filter_self st k2
      rw [AzureStorageProvider.delete, AzureStorageProvider.sdkDeleteBlob,
        if_neg (by rw [hcf]; simp)]
      rfl
    · rw [if_neg (by simpa using hc)] at hok
      simp at hok

/-- C2 (witness): the amended theorem applied at the empty container and
key `k`: the Azure delete of the absent blob errors. -/
theorem C2_delete_witness :
    ([] : AzureStorageProvider.ContainerState).contains "k" = false ∧
    AzureStorageProvider.delete [] "k" = .error
      "Azure Blob Storage delete failed: The specified blob does not exist." :=
  ⟨by decide, (C2_delete_amended ⟨[], []⟩ "k" [] "k").2.2.2.1 (by decide)⟩

/-- C3 (counterexample): the claim as stated is false on the code because
key sanitization is lossy.  Upload key `a!b` (content `[0]`), then upload
the DIFFERENT key `a?b` (content `[1]`): both sanitize to the path `a_b`,
so the second upload overwrites the sidecar of the first, and
`getMetadata("a!b")` now returns the hash of `[1]` — not the etag the
first upload returned — although no intervening operation wrote to the
key `a!b` itself. -/
theorem C3_counterexample : ¬ C3Claim := by
  intro h
  have h1 := h ⟨[], []⟩ "a!b" (.buf [0]) {} 0
    [.up "a?b" (.buf [1]) {} 0] (by decide)
  have h2 : (Except.ok 1801 : Except LErr Nat) = Except.ok 1800 := h1
  simp at h2

/-- C3 (amended): the etag equality holds provided no intervening
operation writes to the key OR TO ANY KEY WITH THE SAME SANITIZED PATH:
after `upload(k, d)` and any trace of mutating operations none of which
touches `sanitizeKey k`, `getMetadata(k)` returns exactly the etag the
upload returned, which is the hash of the stored content bytes. -/
theorem C3_etag_amended (fs : FS) (k : String) (d : UploadData)
    (o : UploadOptions) (now : Nat) (trace : List Op)
    (h : ∀ op ∈ trace, touchesPath op (sanitizeKey k) = false) :
    Except.map MetaResult.etag
        (getMetadata (trace.foldl step (upload fs k d o now).1) k) =
      .ok (upload fs k d o now).2.etag ∧
    (upload fs k d o now).2.etag = hashFn d.bytes ∧
    lookupA (upload fs k d o now).1.contents (sanitizeKey k) =
      some d.bytes := by
  obtain ⟨hc, hs⟩ :=
    foldl_step_preserves trace (upload fs k d o now).1 (sanitizeKey k) h
  have h1 : lookupA (upload fs k d o now).1.sidecars (sanitizeKey k) =
      some (some
        { key := k, size := d.bytes.length
          contentType := effContentType d o, hash := hashFn d.bytes
          uploadTime := now, metadata := o.metadata.getD [] }) := by
    rw [upload]
    exact lookupA_writeA_self _ _ _
  have h2 : lookupA (upload fs k d o now).1.contents (sanitizeKey k) =
      some d.bytes := by
    rw [upload]
    exact lookupA_writeA_self _ _ _
  refine ⟨?_, rfl, h2⟩
  rw [getMetadata, hs, h1, hc, h2]
  rfl

/-- C3 (witness): the amended theorem applied after uploading `[3]` under
key `k` with one intervening delete of the unrelated key `z`. -/
theorem C3_etag_witness :
    (∀ op ∈ [Op.del "z"], touchesPath op (sanitizeKey "k") = false) ∧
    Except.map MetaResult.etag
        (getMetadata
          ([Op.del "z"].foldl step (upload ⟨[], []⟩ "k" (.buf [3]) {} 7).1)
          "k") =
      .ok (upload ⟨[], []⟩ "k" (.buf [3]) {} 7).2.etag :=
  ⟨by decide,
   (C3_etag_amended ⟨[], []⟩ "k" (.buf [3]) {} 7 [Op.del "z"] (by decide)).1⟩

/-- C4 (confirmed): `upload(k, d)` returns `size` equal to the byte length
of the stored data, and an immediate `getMetadata(k)` returns a record
whose `size` field is that same byte length — for both raw-bytes and
existing-file uploads (src/providers/local.js lines 28-80 and 112-137). -/
theorem C4_upload_size (fs : FS) (k : String) (d : UploadData)
    (o : UploadOptions) (now : Nat) :
    (upload fs k d o now).2.size = d.bytes.length ∧
    Except.map MetaResult.size (getMetadata (upload fs k d o now).1 k) =
      .ok d.bytes.length := by
  refine ⟨rfl, ?_⟩
  have h1 : lookupA (upload fs k d o now).1.sidecars (sanitizeKey k) =
      some (some
        { key := k, size := d.bytes.length
          contentType := effContentType d o, hash := hashFn d.bytes
          uploadTime := now, metadata := o.metadata.getD [] }) := by
    rw [upload]
    exact lookupA_writeA_self _ _ _
  have h2 : lookupA (upload fs k d o now).1.contents (sanitizeKey k) =
      some d.bytes := by
    rw [upload]
    exact lookupA_writeA_self _ _ _
  rw [getMetadata, h1, h2]
  rfl

/-- C5 (counterexample): the claim as stated is false on the code for
`limit: 0`.  The source computes the effective limit as
`options.limit || 1000` (src/providers/local.js line 145), and `0` is
falsy in JavaScript, so a listing with `limit: 0` returns up to 1000
objects: on a state with one stored object it returns a page of length 1,
not at most 0. -/
theorem C5_counterexample : ¬ C5Claim := by
  intro h
  have h1 := (h ⟨[("a", [0])], [("a", some ⟨"a", 1, "t", 9, 0, []⟩)]⟩
    none 0).1
  rw [list] at h1
  simp only at h1
  rw [(List.mergeSort_perm _ _).length_eq] at h1
  exact absurd h1 (by decide)

/-- C5 (amended): the page holds at most `limit` objects whenever
`limit ≥ 1` (a limit of `0` — falsy in JavaScript — or an absent limit
falls back to the default of 1000); every returned key passes the prefix
filter; the returned page is sorted by key; and sidecars that fail to
parse are skipped without failing the listing: the page is a total
function of the state and is unchanged when the unparseable sidecar files
are removed. -/
theorem C5_list_amended (fs : FS) (p : Option String) (lim : Nat) :
    (1 ≤ lim → (list fs ⟨p, some lim⟩).objects.length ≤ lim) ∧
    (∀ o ∈ (list fs ⟨p, some lim⟩).objects, matchesPre p o.key = true) ∧
    SortedByKey (list fs ⟨p, some lim⟩).objects ∧
    list fs ⟨p, some lim⟩ = list (dropInvalid fs) ⟨p, some lim⟩ := by
  refine ⟨?_, ?_, ?_, ?_⟩
  · intro hl
    rw [list]
    simp only
    have hlen := listGo_length fs.contents fs.sidecars 0
      (effLimit ⟨p, some lim⟩) p
    have heff : effLimit ⟨p, some lim⟩ = lim := by
      show (if lim = 0 then 1000 else lim) = lim
      rw [if_neg (by omega)]
    have hperm := List.mergeSort_perm
      (listGo fs.contents fs.sidecars 0 (effLimit ⟨p, some lim⟩) p)
      (fun a b => a.key ≤ b.key)
    rw [hperm.length_eq]
    omega
  · intro o ho
    rw [list] at ho
    simp only [List.mem_mergeSort] at ho
    exact listGo_pre fs.contents fs.sidecars 0 (effLimit ⟨p, some lim⟩)
      p o ho
  · rw [list]
    exact sortedByKey_mergeSort _
  · rw [list, list]
    simp only [dropInvalid]
    simp only [listGo_dropNone]

/-- C5 (witness): the amended theorem applied at the empty state with
limit 1. -/
theorem C5_list_witness :
    1 ≤ 1 ∧ (list ⟨[], []⟩ ⟨none, some 1⟩).objects.length ≤ 1 :=
  ⟨by decide, (C5_list_amended ⟨[], []⟩ none 1).1 (by decide)⟩

/-- C6 (code bug): running the concurrent-upload measurement from the
empty state, all five uploaded objects STILL EXIST after the measurement
completes, and the five keys its cleanup loop deleted are keys that were
never uploaded — the cleanup calls `generateTestKey` again
(src/tests/runner.js line 311), which produces fresh unique keys, instead
of reusing the keys the uploads consumed, so repeated runs accumulate
stored objects. -/
theorem C6_cleanup_missed :
    ((List.range 5).all fun i =>
      existsKey (TestRunner.testConcurrentUploads ⟨[], []⟩ 0)
        (TestRunner.concUploadKey i)) = true ∧
    ((List.range 5).all fun i =>
      !existsKey (TestRunner.testConcurrentUploads ⟨[], []⟩ 0)
        (TestRunner.concCleanupKey i)) = true := by
  exact ⟨by decide, by decide⟩

/-- C7 (confirmed): with the distinct test names the three suites use, a
throwing initialization is recorded as overall `error` with an empty
per-test record; otherwise every test of the suite is recorded, in order,
with its own outcome (one test's exception is recorded as that test's
failure and does not stop later tests), and the overall status is
`passed` exactly when every executed test passed and `failed` exactly
otherwise (src/tests/runner.js lines 29-79 and 92-105). -/
theorem C7_suite_aggregation (init : Except String Unit)
    (suite : List (String × TestRunner.TOutcome))
    (hnd : (suite.map Prod.fst).Nodup) :
    (∀ e, init = .error e →
      TestRunner.testProvider init suite =
        { tests := [], overall := "error" }) ∧
    (init = .ok () →
      (TestRunner.testProvider init suite).tests =
        suite.map (fun t => (t.1, TestRunner.statusOf t.2)) ∧
      ((TestRunner.testProvider init suite).overall = "passed" ↔
        ∀ t ∈ suite, t.2 = .ok ()) ∧
      ((TestRunner.testProvider init suite).overall = "failed" ↔
        ¬ ∀ t ∈ suite, t.2 = .ok ())) := by
  constructor
  · intro e he
    rw [he]
    rfl
  · intro hinit
    rw [hinit]
    have htests : (TestRunner.testProvider (.ok ()) suite).tests =
        suite.map (fun t => (t.1, TestRunner.statusOf t.2)) := by
      rw [TestRunner.testProvider]
      simp only
      exact runTests_eq_map suite hnd
    have hcount : ((TestRunner.runTests suite).filter
          (fun t => t.2 = TestRunner.TStatus.passed)).length =
          (TestRunner.runTests suite).length ↔
        ∀ t ∈ suite, t.2 = .ok () := by
      rw [List.filter_length_eq_length, runTests_eq_map suite hnd]
      constructor
      · intro hall t ht
        have hmem := hall (t.1, TestRunner.statusOf t.2)
          (List.mem_map_of_mem _ ht)
        simp only [decide_eq_true_eq] at hmem
        cases houtcome : t.2 with
        | ok u =>
          cases u
          rfl
        | error e =>
          rw [houtcome] at hmem
          simp [TestRunner.statusOf] at hmem
      · intro hall u hu
        rcases List.mem_map.mp hu with ⟨t, ht, rfl⟩
        have := hall t ht
        rw [this]
        simp [TestRunner.statusOf]
    refine ⟨htests, ?_, ?_⟩
    · rw [TestRunner.testProvider]
      simp only
      constructor
      · intro hov
        by_cases hq : ((TestRunner.runTests suite).filter
              (fun t => t.2 = TestRunner.TStatus.passed)).length =
            (TestRunner.runTests suite).length
        · exact hcount.mp hq
        · rw [if_neg hq] at hov
          exact absurd hov (by decide)
      · intro hall
        rw [if_pos (hcount.mpr hall)]
    · rw [TestRunner.testProvider]
      simp only
      constructor
      · intro hov hall
        rw [if_pos (hcount.mpr hall)] at hov
        exact absurd hov (by decide)
      · intro hnall
        rw [if_neg (fun hq => hnall (hcount.mp hq))]

/-- C7 (witness): the aggregation theorem applied to a two-test suite
whose second test throws: the provider record is `failed` even though the
first test passed and both tests were recorded. -/
theorem C7_suite_witness :
    ((["a", "b"] : List String).Nodup) ∧
    (TestRunner.testProvider (.ok ())
      [("a", .ok ()), ("b", .error "boom")]).overall = "failed" :=
  ⟨by decide,
   ((C7_suite_aggregation (.ok ()) [("a", .ok ()), ("b", .error "boom")]
      (by decide)).2 rfl).2.2.mpr
     (fun hall => by
       have hb := hall ("b", Except.error "boom") (by simp)
       cases hb)⟩

/-- C8 (confirmed): `copy` fails with the not-found error when the source
content is absent, and on the success path (source present with a
parseable sidecar and a distinct destination path — `fs-extra` rejects a
same-path copy) the destination holds a copy of the content and a
metadata record with `key` replaced by the destination key and
`uploadTime` refreshed, all other fields verbatim, while the source's
content and record are unchanged (src/providers/local.js lines 227-261). -/
theorem C8_copy_semantics (fs : FS) (sk dk : String) (now : Nat) :
    (lookupA fs.contents (sanitizeKey sk) = none →
      copy fs sk dk now = (fs, .error (.copyNotFound sk))) ∧
    (∀ c m, lookupA fs.contents (sanitizeKey sk) = some c →
      lookupA fs.sidecars (sanitizeKey sk) = some (some m) →
      sanitizeKey sk ≠ sanitizeKey dk →
      (copy fs sk dk now).2 =
        .ok { success := true, sourceKey := sk, destinationKey := dk } ∧
      lookupA (copy fs sk dk now).1.contents (sanitizeKey dk) = some c ∧
      lookupA (copy fs sk dk now).1.sidecars (sanitizeKey dk) =
        some (some { m with key := dk, uploadTime := now }) ∧
      lookupA (copy fs sk dk now).1.contents (sanitizeKey sk) = some c ∧
      lookupA (copy fs sk dk now).1.sidecars (sanitizeKey sk) =
        some (some m)) := by
  constructor
  · intro h
    rw [copy, h]
  · intro c m hc hm hne
    rw [copy, hc]
    simp only
    rw [if_neg hne, hm]
    simp only
    refine ⟨by trivial, ?_, ?_, ?_, ?_⟩
    · exact lookupA_writeA_self _ _ _
    · exact lookupA_writeA_self _ _ _
    · rw [lookupA_writeA_ne _ _ _ _ (Ne.symm hne)]
      exact hc
    · rw [lookupA_writeA_ne _ _ _ _ (Ne.symm hne)]
      exact hm

/-- C8 (witness): the copy theorem applied to a state holding source key
`s` with content `[1]`, copied to key `d`. -/
theorem C8_copy_witness :
    lookupA (FS.contents ⟨[("s", [1])], [("s", some ⟨"s", 1, "t", 9, 4, []⟩)]⟩)
      (sanitizeKey "s") = some [1] ∧
    (copy ⟨[("s", [1])], [("s", some ⟨"s", 1, "t", 9, 4, []⟩)]⟩ "s" "d" 8).2 =
      .ok { success := true, sourceKey := "s", destinationKey := "d" } ∧
    lookupA (copy ⟨[("s", [1])], [("s", some ⟨"s", 1, "t", 9, 4, []⟩)]⟩
        "s" "d" 8).1.sidecars (sanitizeKey "d") =
      some (some ⟨"d", 1, "t", 9, 8, []⟩) :=
  ⟨by decide,
   ((C8_copy_semantics ⟨[("s", [1])], [("s", some ⟨"s", 1, "t", 9, 4, []⟩)]⟩
      "s" "d" 8).2 [1] ⟨"s", 1, "t", 9, 4, []⟩
      (by decide) (by decide) (by decide)).1,
   ((C8_copy_semantics ⟨[("s", [1])], [("s", some ⟨"s", 1, "t", 9, 4, []⟩)]⟩
      "s" "d" 8).2 [1] ⟨"s", 1, "t", 9, 4, []⟩
      (by decide) (by decide) (by decide)).2.2.1⟩

/-- C9 (confirmed): `getHealth` is a total function of the outcome of the
single bounded `list({ limit: 1 })` call — it never rethrows: it reports
`healthy` exactly when that call succeeds, and otherwise `unhealthy`
together with the caught error's message (src/providers/base.js lines
99-115). -/
theorem C9_health (listFn : ListOptions → Except String ListPage) :
    ((BaseStorageProvider.getHealth listFn).status = "healthy" ↔
      (listFn { pre := none, limit := some 1 }).isOk = true) ∧
    (∀ e, listFn { pre := none, limit := some 1 } = .error e →
      BaseStorageProvider.getHealth listFn =
        { status := "unhealthy", errMsg := some e }) ∧
    ((BaseStorageProvider.getHealth listFn).status = "healthy" ∨
      (BaseStorageProvider.getHealth listFn).status = "unhealthy") := by
  cases hres : listFn { pre := none, limit := some 1 } with
  | ok pg =>
    have hgh : BaseStorageProvider.getHealth listFn =
        { status := "healthy", errMsg := none } := by
      rw [BaseStorageProvider.getHealth, hres]
    rw [hgh]
    refine ⟨?_, ?_, Or.inl rfl⟩
    · simp [Except.isOk, Except.toBool]
    · intro e he
      cases he
  | error e2 =>
    have hgh : BaseStorageProvider.getHealth listFn =
        { status := "unhealthy", errMsg := some e2 } := by
      rw [BaseStorageProvider.getHealth, hres]
    rw [hgh]
    refine ⟨?_, ?_, Or.inr rfl⟩
    · constructor
      · intro h
        have h2 : ("unhealthy" : String) = "healthy" := h
        exact absurd h2 (by decide)
      · intro h
        simp [Except.isOk, Except.toBool] at h
    · intro e he
      injection he with he2
      rw [he2]

/-- C9 (witness): the health theorem applied to a provider whose bounded
list call fails with message `boom`. -/
theorem C9_health_witness :
    (fun _ => Except.error "boom" :
        ListOptions → Except String ListPage) { pre := none, limit := some 1 } =
      .error "boom" ∧
    BaseStorageProvider.getHealth
        (fun _ => Except.error "boom" : ListOptions → Except String ListPage) =
      { status := "unhealthy", errMsg := some "boom" } :=
  ⟨rfl, (C9_health (fun _ => Except.error "boom")).2.1 "boom" rfl⟩

/-- C10 (counterexample): the claim as stated is false on the code
because JavaScript property access consults the prototype chain.  For
`s = "constructor"` — whose lowercase form is not a registered
identifier — `providers["constructor"]` yields the inherited (truthy)
`Object` constructor, so `create` does not throw the descriptive error:
it evaluates `new Object(config)` and returns the config object. -/
theorem C10_counterexample : ¬ C10Claim := by
  intro h
  have h2 := h.2 "constructor" (by decide)
  have h3 : (Except.ok StorageProviderFactory.CreateOut.cfgObject :
        Except String StorageProviderFactory.CreateOut) =
      .error (StorageProviderFactory.unknownMsg "constructor") := h2
  cases h3

/-- C10 (amended): the lookup is case-insensitive — `create s` constructs
the same thing as `create` of the lowercased `s` (`toLowerCase` is
idempotent) — and every `s` whose lowercase form is neither a registered
identifier nor one of the lowercase-named `Object.prototype` members
(`constructor`, `__proto__`) throws the error naming `s` and listing the
identifiers; `create("constructor")` instead returns the config object
via the inherited `Object` constructor, and `create("__proto__")` throws
a `TypeError` because `Object.prototype` is not a constructor. -/
theorem C10_factory_amended :
    (∀ s, (StorageProviderFactory.create s).toOption =
      (StorageProviderFactory.create
        (StorageProviderFactory.jsToLower s)).toOption) ∧
    (∀ s,
      StorageProviderFactory.jsToLower s ∉
        StorageProviderFactory.knownProviders →
      StorageProviderFactory.jsToLower s ≠ "constructor" →
      StorageProviderFactory.jsToLower s ≠ "__proto__" →
      StorageProviderFactory.create s =
        .error (StorageProviderFactory.unknownMsg s)) ∧
    StorageProviderFactory.create "constructor" = .ok .cfgObject ∧
    StorageProviderFactory.create "__proto__" =
      .error "ProviderClass is not a constructor" := by
  refine ⟨?_, ?_, rfl, rfl⟩
  · intro s
    rw [StorageProviderFactory.create, StorageProviderFactory.create,
      jsToLower_jsToLower]
    cases StorageProviderFactory.protoLookup
      (StorageProviderFactory.jsToLower s) <;> rfl
  · intro s hmem hcon hproto
    rw [StorageProviderFactory.create, StorageProviderFactory.protoLookup,
      ownLookup_eq_none _ hmem]
    simp only
    rw [if_neg hcon, if_neg hproto]

/-- C10 (witness): the amended theorem applied at the unregistered
identifier `bogus`: `create` throws the descriptive error naming it and
listing the registered identifiers. -/
theorem C10_factory_witness :
    StorageProviderFactory.jsToLower "bogus" ∉
      StorageProviderFactory.knownProviders ∧
    StorageProviderFactory.create "bogus" =
      .error (StorageProviderFactory.unknownMsg "bogus") :=
  ⟨by decide,
   C10_factory_amended.2.1 "bogus" (by decide) (by decide) (by decide)⟩
